import Mathlib

/-!
Shallow embedding of the data pipeline of `src/app.py` (investment dashboard).

The script loads a spreadsheet into a pandas DataFrame, renames columns
positionally to a canonical schema, cleans the `Peso Real` column from
European-formatted strings into numbers, consolidates rows by `Accion`
(groupby: sum of `Peso Real`, first `Pais`, first `Sector`), and derives
pie-chart buckets and rank-range views.

Modelling conventions:
 * pandas cell values are `Cell`: a float (carried as an exact rational whose
   decimal rendering is the float's Python string form), a string, or NaN;
 * machine floats are modelled by `ℚ` (all weights in the claims are exact
   decimals, where float and rational arithmetic agree);
 * `pd.to_numeric(..., errors="coerce")` is modelled by `parseDecimal`,
   covering the decimal/scientific numeral syntax of Python floats
   (optional sign, digits, optional fraction, optional exponent, surrounding
   whitespace); `inf`-style literals are outside the modelled domain;
 * `.astype(str)` is modelled by `cellStr`; pandas renders NaN as "nan" and a
   float by its (shortest round-trip) decimal form, always with a decimal
   point and at least one fractional digit, e.g. `3.5 ↦ "3.5"`, `35.0 ↦ "35.0"`;
 * `Series.str.replace(a, b, regex=False)` is the left-to-right
   non-overlapping substring replacement `strReplace`;
 * stateful abort (`st.stop`) and Python name errors are an `Except` result.
-/

/-- Strip leading and trailing whitespace from a character list
(models Python `str.strip` as used by `.str.strip()` and numeric parsing). -/
def stripWs (cs : List Char) : List Char :=
  ((cs.dropWhile Char.isWhitespace).reverse.dropWhile Char.isWhitespace).reverse

/-- Left-to-right, non-overlapping replacement of the pattern `p` by `r`,
with fuel (the fuel is instantiated with the list length, which suffices since
every step consumes at least one character). Models Python
`str.replace(p, r)` / pandas `.str.replace(p, r, regex=False)` for a
non-empty pattern. -/
def replaceAux (p r : List Char) : ℕ → List Char → List Char
  | 0, cs => cs
  | _ + 1, [] => []
  | f + 1, c :: cs =>
    if List.isPrefixOf p (c :: cs) then
      r ++ replaceAux p r f (List.drop p.length (c :: cs))
    else
      c :: replaceAux p r f cs

/-- String-level wrapper of `replaceAux`: Python `s.replace(pat, rep)`. -/
def strReplace (s pat rep : String) : String :=
  String.mk (replaceAux pat.data rep.data s.data.length s.data)

/-- Numeric value of a list of decimal digit characters (empty list ↦ 0). -/
def parseNatDigits (cs : List Char) : ℕ :=
  cs.foldl (fun a c => 10 * a + (c.toNat - 48)) 0

/-- The rational `±(ipn + fpn / 10^flen) · 10^(±e)`, assembled with a single
`mkRat` over integer arithmetic (the decimal value of a parsed numeral). -/
def ratOfParts (neg : Bool) (ipn flen fpn : ℕ) (epos : Bool) (e : ℕ) : ℚ :=
  let num : ℤ := ((ipn * Nat.pow 10 flen + fpn) * (if epos then Nat.pow 10 e else 1) : ℕ)
  let den : ℕ := Nat.pow 10 flen * (if epos then 1 else Nat.pow 10 e)
  if neg then -(mkRat num den) else mkRat num den

/-- Model of `pd.to_numeric(s, errors="coerce")` on a single string cell:
parses an optionally signed decimal numeral with optional fraction and
optional exponent, tolerating surrounding whitespace; returns `none` (NaN)
when the string is not such a numeral. -/
def parseDecimal (s : String) : Option ℚ :=
  let cs := stripWs s.data
  let neg : Bool := match cs with
    | '-' :: _ => true
    | _ => false
  let cs1 := match cs with
    | '-' :: r => r
    | '+' :: r => r
    | r => r
  let ip := cs1.takeWhile Char.isDigit
  let rest1 := cs1.drop ip.length
  let fp := match rest1 with
    | '.' :: r => r.takeWhile Char.isDigit
    | _ => []
  let rest2 := match rest1 with
    | '.' :: r => r.drop ((r.takeWhile Char.isDigit).length)
    | r => r
  if ip.isEmpty && fp.isEmpty then none
  else
    match rest2 with
    | [] => some (ratOfParts neg (parseNatDigits ip) fp.length (parseNatDigits fp) true 0)
    | e :: r =>
      if e = 'e' || e = 'E' then
        let epos : Bool := match r with
          | '-' :: _ => false
          | _ => true
        let r1 := match r with
          | '-' :: r2 => r2
          | '+' :: r2 => r2
          | r2 => r2
        let ed := r1.takeWhile Char.isDigit
        if ed.isEmpty || ed.length ≠ r1.length then none
        else some (ratOfParts neg (parseNatDigits ip) fp.length (parseNatDigits fp) epos (parseNatDigits ed))
      else none

/-- Fractional decimal digits of `num / den` (with `num < den`), produced by
long division; the fuel bounds the number of emitted digits. -/
def decDigits : ℕ → ℕ → ℕ → List Char
  | 0, _, _ => []
  | _ + 1, 0, _ => []
  | f + 1, num, den => Char.ofNat (48 + (10 * num) / den) :: decDigits f ((10 * num) % den) den

/-- Python `str` of a float, for floats whose shortest decimal form is the
exact decimal expansion of the carried rational (the only floats the claims
exercise): sign, integer part, decimal point, fractional digits, with a `"0"`
fractional part when the value is integral (`str(35.0) = "35.0"`). -/
def floatRepr (q : ℚ) : String :=
  let n := q.num.natAbs
  let d := q.den
  let ip := n / d
  let rem := n % d
  let frac : List Char := if rem = 0 then ['0'] else decDigits 40 rem d
  (if q.num < 0 then "-" else "") ++ toString ip ++ "." ++ String.mk frac

/-- A pandas cell as delivered by the spreadsheet connection: a float, a
string, or NaN (empty cell). -/
inductive Cell where
  | float (q : ℚ)
  | str (s : String)
  | nan
deriving DecidableEq, Repr

/-- `.astype(str)` on one cell: pandas renders floats by Python `str` and NaN
as the string `"nan"`. -/
def cellStr : Cell → String
  | Cell.float q => floatRepr q
  | Cell.str s => s
  | Cell.nan => "nan"

/-- The cleaning chain applied to the `Peso Real` column (`src/app.py`
lines 81‑89), in source order: strip `%`, strip `€`, replace the substring
`nan` by `0`, remove `.` (thousands separator), replace `,` by `.`
(decimal separator). -/
def cleanWeightStr (s : String) : String :=
  strReplace (strReplace (strReplace (strReplace (strReplace s "%" "") "€" "") "nan" "0") "." "") "," "."

/-- The full per-cell weight normalization of `src/app.py` lines 81‑90:
`.astype(str)`, the replacement chain, then
`pd.to_numeric(..., errors="coerce").fillna(0)`. This is the spec's
`parse_weight`. -/
def parse_weight (c : Cell) : ℚ :=
  (parseDecimal (cleanWeightStr (cellStr c))).getD 0

/-- The cleaning chain exactly as §4.1 of the spec words it: "strip `%` and
currency symbols; replace the literal substring `nan` with `0`; remove all `.`
characters (thousands separators); replace `,` with `.` (decimal separator)".
Stated separately from `cleanWeightStr` (which transcribes the source) so the
two can be compared. -/
def specCleanEuropean (s : String) : String :=
  strReplace (strReplace (strReplace (strReplace (strReplace s "%" "") "€" "") "nan" "0") "." "") "," "."

/-- C3 counterexample. The claim says `parse_weight(3.5) = 3.5` (numeric
input returned unchanged). The source applies `.astype(str)` to the whole
column before the replacement chain, so the float `3.5` becomes the string
`"3.5"`, whose decimal point is then removed as a thousands separator:
the result is `35`, not `3.5`. -/
theorem c3_numeric_counterexample : ¬ parse_weight (Cell.float (7 / 2)) = 7 / 2 := by
  have h : (7 / 2 : ℚ) = mkRat 7 2 := by rw [Rat.mkRat_eq_div]; norm_num
  rw [h]; decide

/-- C3 amended. A numeric cell is not returned unchanged: `.astype(str)`
renders `3.5` as `"3.5"`, the cleaning chain strips the `.` as a thousands
separator, and the parsed result is `35`. -/
theorem c3_numeric_amended : parse_weight (Cell.float (7 / 2)) = 35 := by
  have h : (7 / 2 : ℚ) = mkRat 7 2 := by rw [Rat.mkRat_eq_div]; norm_num
  rw [h]; decide

/-- C7: whenever the cleaned string does not parse as a numeral (the empty
string included), the weight is silently coerced to `0` — the
`pd.to_numeric(..., errors="coerce").fillna(0)` policy of `src/app.py`
line 90; no error is raised (the model is a total function). -/
theorem c7_parse_failure_yields_zero :
    (∀ s : String, parseDecimal (cleanWeightStr s) = none → parse_weight (Cell.str s) = 0)
    ∧ parse_weight (Cell.str "") = 0 := by
  refine ⟨fun s h => ?_, by decide⟩
  simp [parse_weight, cellStr, h]

/-- C7 witness: the policy at the concrete input `""`. -/
theorem c7_witness : parse_weight (Cell.str "") = 0 :=
  c7_parse_failure_yields_zero.1 "" (by decide)

/-- C8: the cleaning chain runs in the spec's order (strip `%` and `€`,
replace `nan` by `0`, remove `.`, turn `,` into `.`), so
`parse_weight("1.234,56%") = 1234.56` and `parse_weight("nan") = 0`;
moreover the source's chain `cleanWeightStr` coincides with the chain
`specCleanEuropean` transcribed from the spec's words, on every string. -/
theorem c8_european_cleaning :
    parse_weight (Cell.str "1.234,56%") = 123456 / 100
    ∧ parse_weight (Cell.str "nan") = 0
    ∧ ∀ s : String, cleanWeightStr s = specCleanEuropean s := by
  refine ⟨?_, by decide, fun s => rfl⟩
  exact (by decide : parse_weight (Cell.str "1.234,56%") = mkRat 123456 100).trans
    (by rw [Rat.mkRat_eq_div]; norm_num)

/-- A row of the cleaned DataFrame as it enters the groupby of `src/app.py`
line 95: the `Accion` key as pandas sees it (`none` = NaN, e.g. an empty
spreadsheet cell), the numeric `Peso Real` (already coerced by the cleaning
stage, hence total), and the raw `Pais` / `Sector` cells (`none` = NaN). -/
structure NormalizedRow where
  accion : Option String
  pesoReal : ℚ
  pais : Option String
  sector : Option String
deriving DecidableEq, Repr

/-- One entry of the consolidated DataFrame produced by
`groupby("Accion").agg({"Peso Real": "sum", "Pais": "first", "Sector": "first"})`. -/
structure ConsolidatedPosition where
  accion : String
  pesoReal : ℚ
  pais : Option String
  sector : Option String
deriving DecidableEq, Repr

/-- The rows of one `groupby("Accion")` group. -/
def groupRows (rows : List NormalizedRow) (a : String) : List NormalizedRow :=
  rows.filter (fun r => r.accion = some a)

/-- `"Peso Real": "sum"` over one group. -/
def groupWeight (rows : List NormalizedRow) (a : String) : ℚ :=
  ((groupRows rows a).map NormalizedRow.pesoReal).sum

/-- `"Pais": "first"` over one group: pandas `first` returns the first
non-NaN value of the group in input order (NaN if the whole group is NaN). -/
def firstPais (rows : List NormalizedRow) (a : String) : Option String :=
  ((groupRows rows a).filterMap NormalizedRow.pais).head?

/-- `"Sector": "first"` over one group (first non-NaN in input order). -/
def firstSector (rows : List NormalizedRow) (a : String) : Option String :=
  ((groupRows rows a).filterMap NormalizedRow.sector).head?

/-- The group keys of `groupby("Accion", sort=True, dropna=True)` (the pandas
defaults): the distinct non-NaN `Accion` values, in ascending lexicographic
order (rows whose key is NaN belong to no group). -/
def sortedKeys (rows : List NormalizedRow) : List String :=
  List.insertionSort (fun a b => a ≤ b) (rows.filterMap NormalizedRow.accion).dedup

/-- The consolidation step of `src/app.py` lines 95‑99. -/
def consolidate (rows : List NormalizedRow) : List ConsolidatedPosition :=
  (sortedKeys rows).map (fun a => ⟨a, groupWeight rows a, firstPais rows a, firstSector rows a⟩)

theorem sortedKeys_nodup (rows : List NormalizedRow) : (sortedKeys rows).Nodup := by
  unfold sortedKeys
  exact (List.perm_insertionSort _ _).nodup_iff.mpr (List.nodup_dedup _)

theorem mem_sortedKeys {rows : List NormalizedRow} {a : String} (r : NormalizedRow)
    (hr : r ∈ rows) (ha : r.accion = some a) : a ∈ sortedKeys rows := by
  unfold sortedKeys
  exact (List.perm_insertionSort _ _).mem_iff.mpr
    (List.mem_dedup.mpr (List.mem_filterMap.mpr ⟨r, hr, ha⟩))

theorem groupWeight_cons (r : NormalizedRow) (rows : List NormalizedRow) (k : String) :
    groupWeight (r :: rows) k = (if r.accion = some k then r.pesoReal else 0) + groupWeight rows k := by
  by_cases h : r.accion = some k <;> simp [groupWeight, groupRows, h]

theorem sum_map_add (l : List String) (F G : String → ℚ) :
    (l.map (fun x => F x + G x)).sum = (l.map F).sum + (l.map G).sum := by
  induction l with
  | nil => simp
  | cons a l ih => simp only [List.map_cons, List.sum_cons, ih]; ring

theorem sum_ite_not_mem (ks : List String) (a : String) (c : ℚ) (ha : a ∉ ks) :
    (ks.map (fun k => if a = k then c else 0)).sum = 0 := by
  induction ks with
  | nil => simp
  | cons k ks ih =>
    simp only [List.mem_cons, not_or] at ha
    simp [if_neg ha.1, ih ha.2]

theorem sum_ite_single (ks : List String) (a : String) (c : ℚ) (hnd : ks.Nodup) (ha : a ∈ ks) :
    (ks.map (fun k => if a = k then c else 0)).sum = c := by
  induction ks with
  | nil => simp at ha
  | cons k ks ih =>
    rcases List.nodup_cons.mp hnd with ⟨hk, hnd'⟩
    rcases List.mem_cons.mp ha with h | h
    · subst h
      simp [sum_ite_not_mem ks a c hk]
    · have hak : a ≠ k := fun e => hk (e ▸ h)
      simp only [List.map_cons, List.sum_cons, if_neg hak, zero_add]
      exact ih hnd' h

theorem sum_groupWeight_eq (ks : List String) (rows : List NormalizedRow) (hnd : ks.Nodup)
    (hcov : ∀ r ∈ rows, ∀ a, r.accion = some a → a ∈ ks) :
    (ks.map (fun k => groupWeight rows k)).sum
      = ((rows.filter (fun r => r.accion.isSome)).map NormalizedRow.pesoReal).sum := by
  revert hcov
  induction rows with
  | nil => intro _; simp [groupWeight, groupRows]
  | cons r rows ih =>
    intro hcov
    have hcov' : ∀ r' ∈ rows, ∀ a, r'.accion = some a → a ∈ ks :=
      fun r' hr' a ha => hcov r' (List.mem_cons_of_mem r hr') a ha
    have hstep : (ks.map (fun k => groupWeight (r :: rows) k)).sum
        = (ks.map (fun k => if r.accion = some k then r.pesoReal else 0)).sum
          + (ks.map (fun k => groupWeight rows k)).sum := by
      rw [← sum_map_add]
      simp only [groupWeight_cons]
    cases haccion : r.accion with
    | none =>
      have h0 : (ks.map (fun k => if r.accion = some k then r.pesoReal else 0)).sum = 0 := by
        simp [haccion]
      rw [hstep, h0, ih hcov', zero_add]
      simp [List.filter_cons, haccion]
    | some a =>
      have hmem : a ∈ ks := hcov r (List.mem_cons_self r rows) a haccion
      have h1 : (ks.map (fun k => if r.accion = some k then r.pesoReal else 0)).sum
          = r.pesoReal := by
        simp only [haccion, Option.some.injEq]
        exact sum_ite_single ks a r.pesoReal hnd hmem
      rw [hstep, h1, ih hcov']
      simp [List.filter_cons, haccion]

/-- Mass of one row whose `Accion` is NaN and whose weight is 5. -/
def lostMassRows : List NormalizedRow := [⟨none, 5, some "US", some "Tech"⟩]

/-- C1 counterexample. The claim asserts mass preservation for *every*
sequence of normalized rows; but `groupby("Accion")` (pandas default
`dropna=True`) drops rows whose key is NaN, so a single row with NaN
`Accion` and weight 5 consolidates to an empty frame of total weight 0. -/
theorem c1_counterexample :
    ¬ ((consolidate lostMassRows).map ConsolidatedPosition.pesoReal).sum
        = (lostMassRows.map NormalizedRow.pesoReal).sum := by
  with_unfolding_all decide

/-- C1 (amended): consolidation preserves total mass over the rows whose
`Accion` key is present (non-NaN): the sum of `Peso Real` over the
consolidated positions equals the sum of `Peso Real` over exactly those
input rows. -/
theorem c1_total_mass (rows : List NormalizedRow) :
    ((consolidate rows).map ConsolidatedPosition.pesoReal).sum
      = ((rows.filter (fun r => r.accion.isSome)).map NormalizedRow.pesoReal).sum := by
  have hmap : (consolidate rows).map ConsolidatedPosition.pesoReal
      = (sortedKeys rows).map (fun k => groupWeight rows k) := by
    unfold consolidate
    rw [List.map_map]
    rfl
  rw [hmap]
  exact sum_groupWeight_eq _ _ (sortedKeys_nodup rows)
    (fun r hr a ha => mem_sortedKeys r hr ha)

theorem map_filter_key (ks : List String) (f : String → ConsolidatedPosition)
    (hf : ∀ k, (f k).accion = k) (a : String) (hnd : ks.Nodup) (ha : a ∈ ks) :
    (ks.map f).filter (fun p => p.accion = a) = [f a] := by
  induction ks with
  | nil => simp at ha
  | cons k ks ih =>
    rcases List.nodup_cons.mp hnd with ⟨hk, hnd'⟩
    rcases List.mem_cons.mp ha with h | h
    · subst h
      have h0 : (ks.map f).filter (fun p => p.accion = a) = [] := by
        rw [List.filter_eq_nil_iff]
        intro x hx
        rcases List.mem_map.mp hx with ⟨k', hk', rfl⟩
        simp only [decide_eq_true_eq, hf k']
        exact fun e => hk (e ▸ hk')
      simp [List.filter_cons, hf a, h0]
    · have hak : k ≠ a := fun e => hk (e ▸ h)
      simp only [List.map_cons, List.filter_cons, hf k]
      rw [if_neg (by simpa using hak)]
      exact ih hnd' h

/-- Two rows for security "X": the first with a NaN `Pais`, the second with
`Pais = "US"`. -/
def conflictRows : List NormalizedRow :=
  [⟨some "X", 1, none, some "T"⟩, ⟨some "X", 2, some "US", some "T"⟩]

/-- The claim's Apple example: two rows for "Apple", weights 2.0 and 3.5,
countries "US" then "IE". -/
def appleRows : List NormalizedRow :=
  [⟨some "Apple", 2, some "US", some "Tech"⟩, ⟨some "Apple", 7 / 2, some "IE", some "Tech"⟩]

/-- C5 counterexample. The claim says `Country` and `Sector` come from the
first row encountered for the security; but `agg({"Pais": "first"})` is
pandas `GroupBy.first`, which skips NaN: for `conflictRows` (first row's
country NaN) the consolidated country is `"US"` from the second row, not the
first row's NaN. -/
theorem c5_counterexample :
    consolidate conflictRows ≠ [⟨"X", 3, none, some "T"⟩]
    ∧ consolidate conflictRows = [⟨"X", 3, some "US", some "T"⟩] := by
  with_unfolding_all decide

/-- C5 (amended): for every present security name, consolidation emits
exactly one position, whose total weight is the sum of the security's row
weights and whose country/sector are the first *non-NaN* country/sector of
the security's rows in input order; on the claim's Apple example (both
countries non-NaN) this gives `TotalWeight = 5.5` and `Country = "US"`
exactly as the claim states. -/
theorem c5_consolidation :
    (∀ (rows : List NormalizedRow) (a : String), some a ∈ rows.map NormalizedRow.accion →
        (consolidate rows).filter (fun p => p.accion = a)
          = [⟨a, groupWeight rows a, firstPais rows a, firstSector rows a⟩])
    ∧ consolidate appleRows = [⟨"Apple", 11 / 2, some "US", some "Tech"⟩] := by
  constructor
  · intro rows a ha
    rcases List.mem_map.mp ha with ⟨r, hr, hacc⟩
    exact map_filter_key (sortedKeys rows) _ (fun k => rfl) a
      (sortedKeys_nodup rows) (mem_sortedKeys r hr hacc)
  · have h : (11 / 2 : ℚ) = mkRat 11 2 := by rw [Rat.mkRat_eq_div]; norm_num
    rw [h]
    with_unfolding_all decide

/-- C5 witness: the general consolidation theorem applied to the Apple rows,
with the hypothesis discharged and the aggregates evaluated. -/
theorem c5_witness :
    (consolidate appleRows).filter (fun p => p.accion = "Apple")
      = [⟨"Apple", 11 / 2, some "US", some "Tech"⟩] := by
  have h := c5_consolidation.1 appleRows "Apple" (by with_unfolding_all decide)
  rw [h]
  have h2 : (11 / 2 : ℚ) = mkRat 11 2 := by rw [Rat.mkRat_eq_div]; norm_num
  rw [h2]
  with_unfolding_all decide

/-- `dataframe.groupby(col_name)["Peso Real"].sum()` inside
`prepare_pie_data` (`src/app.py` line 116): per-category weight sums, keys in
ascending order, NaN categories dropped (pandas defaults). The column choice
(`"Pais"` or `"Sector"`) is the extractor `cat`. -/
def pieGroups (ps : List ConsolidatedPosition) (cat : ConsolidatedPosition → Option String) :
    List (String × ℚ) :=
  (List.insertionSort (fun a b => a ≤ b) (ps.filterMap cat).dedup).map
    (fun k => (k, ((ps.filter (fun p => cat p = some k)).map ConsolidatedPosition.pesoReal).sum))

/-- The label of the residual bucket, `f'Otros (<{threshold}%)'`
(`src/app.py` line 120), rendering the threshold the way Python renders the
float `0.5`. -/
def otrosLabel (t : ℚ) : String := "Otros (<" ++ floatRepr t ++ "%)"

/-- `prepare_pie_data` of `src/app.py` lines 114‑122: keep the main buckets
(group sum ≥ threshold); if any group falls below the threshold, append a
single residual bucket carrying the sum of all such groups. -/
def prepare_pie_data (ps : List ConsolidatedPosition)
    (cat : ConsolidatedPosition → Option String) (threshold : ℚ) : List (String × ℚ) :=
  let grouped := pieGroups ps cat
  let main := grouped.filter (fun b => threshold ≤ b.2)
  let others := grouped.filter (fun b => b.2 < threshold)
  if others.isEmpty then main
  else main ++ [(otrosLabel threshold, (others.map Prod.snd).sum)]

/-- The claim's bucketing example: category weights A:40, B:0.3, C:0.2, D:59.5. -/
def pieExample : List ConsolidatedPosition :=
  [⟨"p1", 40, some "A", none⟩, ⟨"p2", 3 / 10, some "B", none⟩,
   ⟨"p3", 1 / 5, some "C", none⟩, ⟨"p4", 119 / 2, some "D", none⟩]

/-- C6: the distribution bucketer. Concrete part: weights
`{A: 40, B: 0.3, C: 0.2, D: 59.5}` at threshold 0.5 yield
`{A: 40, D: 59.5, "Otros (<0.5%)": 0.5}`. General part: every group with sum
≥ threshold appears as its own bucket; if some group has sum below the
threshold, the output is exactly the main buckets plus one residual bucket
labeled with the threshold and carrying the residual total; otherwise the
output is exactly the groups. -/
theorem c6_bucketer :
    prepare_pie_data pieExample ConsolidatedPosition.pais (1 / 2)
      = [("A", 40), ("D", 119 / 2), ("Otros (<0.5%)", 1 / 2)]
    ∧ ∀ (ps : List ConsolidatedPosition) (cat : ConsolidatedPosition → Option String) (t : ℚ),
        ((∃ b ∈ pieGroups ps cat, b.2 < t) →
          prepare_pie_data ps cat t
            = (pieGroups ps cat).filter (fun b => t ≤ b.2)
              ++ [(otrosLabel t, (((pieGroups ps cat).filter (fun b => b.2 < t)).map Prod.snd).sum)])
        ∧ ((∀ b ∈ pieGroups ps cat, t ≤ b.2) → prepare_pie_data ps cat t = pieGroups ps cat) := by
  refine ⟨?_, fun ps cat t => ⟨fun hex => ?_, fun hall => ?_⟩⟩
  · have h1 : (1 / 2 : ℚ) = mkRat 1 2 := by rw [Rat.mkRat_eq_div]; norm_num
    have h2 : (119 / 2 : ℚ) = mkRat 119 2 := by rw [Rat.mkRat_eq_div]; norm_num
    have h3 : (3 / 10 : ℚ) = mkRat 3 10 := by rw [Rat.mkRat_eq_div]; norm_num
    have h4 : (1 / 5 : ℚ) = mkRat 1 5 := by rw [Rat.mkRat_eq_div]; norm_num
    simp only [pieExample, h1, h2, h3, h4]
    with_unfolding_all decide
  · have hne : ((pieGroups ps cat).filter (fun b => b.2 < t)).isEmpty = false := by
      rcases hex with ⟨b, hb, hlt⟩
      have hmemf : b ∈ (pieGroups ps cat).filter (fun b => b.2 < t) :=
        List.mem_filter.mpr ⟨hb, by simpa using hlt⟩
      cases hfe : ((pieGroups ps cat).filter (fun b => b.2 < t)).isEmpty with
      | false => rfl
      | true =>
        rw [List.isEmpty_iff] at hfe
        rw [hfe] at hmemf
        simp at hmemf
    simp [prepare_pie_data, hne]
  · have he : ((pieGroups ps cat).filter (fun b => b.2 < t)) = [] := by
      rw [List.filter_eq_nil_iff]
      intro b hb
      simp only [decide_eq_true_eq, not_lt]
      exact hall b hb
    have hmain : (pieGroups ps cat).filter (fun b => t ≤ b.2) = pieGroups ps cat := by
      rw [List.filter_eq_self]
      intro b hb
      simpa using hall b hb
    simp [prepare_pie_data, he, hmain]

/-- C6 witness: the residual branch of the bucketer theorem at the concrete
example (group B has sum 0.3 < 0.5), with the hypothesis discharged. -/
theorem c6_witness :
    prepare_pie_data pieExample ConsolidatedPosition.pais (1 / 2)
      = (pieGroups pieExample ConsolidatedPosition.pais).filter (fun b => (1 : ℚ) / 2 ≤ b.2)
        ++ [(otrosLabel (1 / 2),
            (((pieGroups pieExample ConsolidatedPosition.pais).filter
                (fun b => b.2 < (1 : ℚ) / 2)).map Prod.snd).sum)] :=
  (c6_bucketer.2 pieExample ConsolidatedPosition.pais (1 / 2)).1 (by
    have h3 : (3 / 10 : ℚ) = mkRat 3 10 := by rw [Rat.mkRat_eq_div]; norm_num
    have h1 : (1 / 2 : ℚ) = mkRat 1 2 := by rw [Rat.mkRat_eq_div]; norm_num
    have h2 : (119 / 2 : ℚ) = mkRat 119 2 := by rw [Rat.mkRat_eq_div]; norm_num
    have h4 : (1 / 5 : ℚ) = mkRat 1 5 := by rw [Rat.mkRat_eq_div]; norm_num
    simp only [pieExample, h1, h2, h3, h4]
    with_unfolding_all decide)

/-- `expected_cols` of `src/app.py` lines 63‑66: the canonical column names,
with the weight column `"Peso Real"` at position 9 (the 10th column). -/
def expected_cols : List String :=
  ["Fund ISIN", "Fondo", "Accion", "Ticker", "ISIN Security",
   "Sector", "Pais", "Weight Fund", "Alloc", "Peso Real"]

/-- Python `str.strip` on a column name (`df_raw.columns.str.strip()`,
`src/app.py` line 60). -/
def trimStr (s : String) : String := String.mk (stripWs s.data)

/-- Lookup in a Python dict built by insertions in list order: the *last*
binding of a key wins (later `mapping[current_cols[i]] = new_name`
assignments overwrite earlier ones when a raw name repeats). -/
def dictLookup : List (String × String) → String → Option String
  | [], _ => none
  | kv :: rest, c =>
    match dictLookup rest c with
    | some v => some v
    | none => if kv.1 = c then some kv.2 else none

/-- The header after `src/app.py` lines 60‑73: names are stripped, the
mapping `{current_cols[i] ↦ expected_cols[i] | i < min(10, n)}` is built
(dict semantics), and `df_raw.rename(columns=mapping)` replaces every
column name that is a key of the mapping, leaving other names unchanged. -/
def renameHeader (header : List String) : List String :=
  let current := header.map trimStr
  let pairs := current.zip expected_cols
  current.map (fun c => (dictLookup pairs c).getD c)

/-- Abort conditions of the script: an unbound Python name (`NameError`), or
the `st.error` + `st.stop` exit at `src/app.py` lines 76‑78 when the weight
column is missing — the spec's `SchemaTooNarrow` condition. -/
inductive RunError where
  | nameError (n : String)
  | schemaTooNarrow
deriving DecidableEq, Repr

/-- The raw DataFrame: a header row and row-major cells. -/
structure RawFrame where
  header : List String
  cells : List (List Cell)
deriving DecidableEq, Repr

/-- `df[name]` for one row: the cell at the first column whose (renamed)
label is `name`, NaN when the row is too short. -/
def colCell (cols : List String) (row : List Cell) (name : String) : Cell :=
  row.getD (cols.findIdx (fun c => c = name)) Cell.nan

/-- A raw cell used as a groupby key or categorical value: NaN is missing;
a string is itself; a float key is identified by its rendering (float-typed
`Accion`/`Pais`/`Sector` cells do not occur in the claims). -/
def asOptStr : Cell → Option String
  | Cell.nan => none
  | Cell.str s => some s
  | Cell.float q => some (floatRepr q)

/-- One row of the cleaned frame: raw `Accion`/`Pais`/`Sector` plus the
`Peso Real` cell pushed through the cleaning chain of lines 81‑90. -/
def extractRow (cols : List String) (row : List Cell) : NormalizedRow :=
  { accion := asOptStr (colCell cols row "Accion")
    pesoReal := parse_weight (colCell cols row "Peso Real")
    pais := asOptStr (colCell cols row "Pais")
    sector := asOptStr (colCell cols row "Sector") }

/-- `src/app.py` lines 57‑99: rename the columns, stop (`SchemaTooNarrow`)
when `"Peso Real"` is absent, otherwise clean the weights and consolidate.
(The subsequent ranking sort of line 102 is a separate presentation step.) -/
def cleanAndConsolidate (df : RawFrame) : Except RunError (List ConsolidatedPosition) :=
  let cols := renameHeader df.header
  if "Peso Real" ∈ cols then
    Except.ok (consolidate (df.cells.map (extractRow cols)))
  else
    Except.error RunError.schemaTooNarrow

/-- The module-level Python names bound by `src/app.py` before line 51 on a
run where the password gate passed and `load_data()` succeeded: the four
imports, the two function defs, and `df_raw`. -/
def globalsBeforeDiagnostic : List String :=
  ["st", "GSheetsConnection", "pd", "px", "check_password", "load_data", "df_raw"]

/-- Python name resolution: a `NameError` when the name is unbound. -/
def lookupGlobal (env : List String) (n : String) : Except RunError String :=
  if n ∈ env then Except.ok n else Except.error (RunError.nameError n)

/-- The script from line 51 on (after a passed password gate and a
successful `load_data()`): line 51 evaluates the name `debug_mode`, and only
then would the cleaning/consolidation pipeline run. -/
def scriptAfterLoad (df : RawFrame) : Except RunError (List ConsolidatedPosition) :=
  (lookupGlobal globalsBeforeDiagnostic "debug_mode").bind (fun _ => cleanAndConsolidate df)

/-- C2: `debug_mode` is not among the names the script has bound when
line 51 reads it, so every run that passes the password gate and loads the
data raises `NameError("debug_mode")` before column cleaning begins, and no
consolidated output is ever produced. -/
theorem c2_debug_mode_name_error :
    globalsBeforeDiagnostic.contains "debug_mode" = false
    ∧ ∀ df : RawFrame, scriptAfterLoad df = Except.error (RunError.nameError "debug_mode") := by
  refine ⟨by decide, fun df => ?_⟩
  rfl

theorem dictLookup_none (pairs : List (String × String)) (c : String)
    (h : ∀ kv ∈ pairs, kv.1 ≠ c) : dictLookup pairs c = none := by
  induction pairs with
  | nil => rfl
  | cons kv rest ih =>
    have hrest := ih (fun kv' hkv' => h kv' (List.mem_cons_of_mem kv hkv'))
    simp [dictLookup, hrest, if_neg (h kv (List.mem_cons_self kv rest))]

theorem dictLookup_mem (cur : List String) (c : String) :
    ∀ exp : List String, c ∈ cur → cur.length ≤ exp.length →
      ∃ v, dictLookup (cur.zip exp) c = some v ∧ v ∈ exp.take cur.length := by
  induction cur with
  | nil => intro exp hc _; simp at hc
  | cons c0 cur' ih =>
    intro exp hc hlen
    cases exp with
    | nil => simp at hlen
    | cons e0 exp' =>
      by_cases hmem : c ∈ cur'
      · obtain ⟨v, hv, hvm⟩ := ih exp' hmem (by simpa using Nat.le_of_succ_le_succ hlen)
        refine ⟨v, ?_, ?_⟩
        · have hv' : dictLookup (List.zipWith Prod.mk cur' exp') c = some v := hv
          simp [List.zip_cons_cons, dictLookup, hv']
        · simpa [List.take_succ_cons] using List.mem_cons_of_mem e0 hvm
      · have hc0 : c = c0 := by
          rcases List.mem_cons.mp hc with h | h
          · exact h
          · exact absurd h hmem
        have hnone : dictLookup (cur'.zip exp') c = none := by
          refine dictLookup_none _ _ (fun kv hkv => ?_)
          rcases kv with ⟨k, v⟩
          have hk : k ∈ cur' := (List.of_mem_zip hkv).1
          exact fun e => hmem (e ▸ hk)
        refine ⟨e0, ?_, ?_⟩
        · have hnone' : dictLookup (List.zipWith Prod.mk cur' exp') c0 = none := hc0 ▸ hnone
          simp [List.zip_cons_cons, dictLookup, hc0, hnone']
        · simp [List.take_succ_cons]

theorem take_sub {α : Type} (l : List α) : ∀ (m n : ℕ), m ≤ n → ∀ x ∈ l.take m, x ∈ l.take n := by
  induction l with
  | nil => intro m n _ x hx; simp at hx
  | cons a l ih =>
    intro m n hmn x hx
    cases m with
    | zero => simp at hx
    | succ m' =>
      cases n with
      | zero => omega
      | succ n' =>
        rw [List.take_succ_cons] at hx ⊢
        rcases List.mem_cons.mp hx with h | h
        · exact h ▸ List.mem_cons_self _ _
        · exact List.mem_cons_of_mem _ (ih m' n' (by omega) x h)

/-- With at most 9 raw columns, every (trimmed) raw name is a key of the
positional mapping, so every renamed column name is one of the first ≤ 9
canonical names — and `"Peso Real"` (canonical position 9) is not among
them. -/
theorem pesoReal_not_in_narrow (header : List String) (h9 : header.length ≤ 9) :
    "Peso Real" ∉ renameHeader header := by
  intro hmem
  unfold renameHeader at hmem
  rcases List.mem_map.mp hmem with ⟨c, hc, hcv⟩
  have hlen : (header.map trimStr).length ≤ expected_cols.length := by
    rw [List.length_map]
    have h10 : expected_cols.length = 10 := rfl
    omega
  obtain ⟨v, hv, hvm⟩ := dictLookup_mem (header.map trimStr) c expected_cols hc hlen
  rw [hv, Option.getD_some] at hcv
  subst hcv
  have h9' : (header.map trimStr).length ≤ 9 := by rw [List.length_map]; exact h9
  have hfin : "Peso Real" ∈ expected_cols.take 9 :=
    take_sub expected_cols _ 9 h9' _ hvm
  exact absurd hfin (by decide)

/-- C9: a header with at most 9 columns (in particular 3) cannot yield the
weight column after renaming, so the pipeline stops at `src/app.py`
lines 76‑78 with the `SchemaTooNarrow` condition, before any consolidation
output is produced. -/
theorem c9_schema_too_narrow (header : List String) (cells : List (List Cell))
    (h9 : header.length ≤ 9) :
    cleanAndConsolidate ⟨header, cells⟩ = Except.error RunError.schemaTooNarrow := by
  simp only [cleanAndConsolidate]
  rw [if_neg (pesoReal_not_in_narrow header h9)]

/-- C9 witness: the 3-column header of the claim. -/
theorem c9_witness :
    cleanAndConsolidate ⟨["a", "b", "c"], []⟩ = Except.error RunError.schemaTooNarrow :=
  c9_schema_too_narrow ["a", "b", "c"] [] (by decide)

/-- Ordering of consolidated positions by weight (`"Peso Real"`). -/
def pesoLe (a b : ConsolidatedPosition) : Prop := a.pesoReal ≤ b.pesoReal

instance : DecidableRel pesoLe :=
  fun a b => inferInstanceAs (Decidable (a.pesoReal ≤ b.pesoReal))

instance : IsTotal ConsolidatedPosition pesoLe :=
  ⟨fun a b => le_total a.pesoReal b.pesoReal⟩

instance : IsTrans ConsolidatedPosition pesoLe :=
  ⟨fun _ _ _ h1 h2 => le_trans h1 h2⟩

/-- `df.iloc[start_rank-1 : end_rank].sort_values("Peso Real", ascending=True)`
(`src/app.py` line 184): the inclusive rank sub-range of the descending
ranked view, re-sorted ascending. The sort is modelled by insertion sort;
all proved properties are independent of how the sort orders ties. -/
def selectRange (ranked : List ConsolidatedPosition) (startRank endRank : ℕ) :
    List ConsolidatedPosition :=
  List.insertionSort pesoLe ((ranked.drop (startRank - 1)).take (endRank - (startRank - 1)))

/-- C10: on a descending-ranked input of at least 25 positions,
`select_range(ranked, 11, 25)` returns exactly 15 elements, they are exactly
ranks 11 through 25 of the input (a permutation of that slice), and they are
in ascending weight order; and an empty selected range (`end < start`)
yields an empty sequence, not an error. -/
theorem c10_select_range :
    (∀ ranked : List ConsolidatedPosition,
        25 ≤ ranked.length →
        List.Pairwise (fun a b => pesoLe b a) ranked →
        (selectRange ranked 11 25).length = 15
          ∧ (selectRange ranked 11 25).Perm ((ranked.drop 10).take 15)
          ∧ List.Sorted pesoLe (selectRange ranked 11 25))
    ∧ ∀ (ranked : List ConsolidatedPosition) (s e : ℕ), e < s → selectRange ranked s e = [] := by
  constructor
  · intro ranked hlen _hdesc
    have hperm : (selectRange ranked 11 25).Perm ((ranked.drop 10).take 15) :=
      List.perm_insertionSort pesoLe _
    refine ⟨?_, hperm, ?_⟩
    · rw [hperm.length_eq, List.length_take, List.length_drop]
      omega
    · exact List.sorted_insertionSort pesoLe _
  · intro ranked s e hes
    unfold selectRange
    have h0 : e - (s - 1) = 0 := by omega
    rw [h0]
    simp

/-- 25 concrete positions with strictly descending weights 25, 24, …, 1. -/
def wRanked : List ConsolidatedPosition :=
  (List.range 25).map (fun i => ⟨"S" ++ toString i, mkRat (25 - (i : ℤ)) 1, none, none⟩)

/-- C10 witness: the range-selector theorem at the concrete 25-element
descending list, hypotheses discharged, plus the empty-range case at
`start = 30 > end = 20`. -/
theorem c10_witness :
    (selectRange wRanked 11 25).length = 15
      ∧ (selectRange wRanked 11 25).Perm ((wRanked.drop 10).take 15)
      ∧ List.Sorted pesoLe (selectRange wRanked 11 25)
      ∧ selectRange wRanked 30 20 = [] := by
  obtain ⟨h1, h2, h3⟩ :=
    c10_select_range.1 wRanked (by decide) (by with_unfolding_all decide)
  exact ⟨h1, h2, h3, c10_select_range.2 wRanked 30 20 (by decide)⟩
